import Mathlib

/-!
Shallow embedding of the retrieval-and-session core of the
structure-conversation-rag service:

* `ConversationMemoryManager` (backend/app/memory/conversation.py),
* `VectorStoreService` (backend/app/rag/vector_store.py),
* `RetrieverService` (backend/app/rag/retriever.py),
* `truncate_text` (backend/app/utils.py) and the retrieval settings
  (backend/app/config.py).

Conventions of the embedding:
* Python dicts become insertion-ordered association lists
  (`List (String × α)`) with `dictGet` / `dictSet` / `dictErase`.
* Python floats become `ℚ`; the service only compares scores and applies
  `1 / (1 + distance)`, both exact in `ℚ`.
* The FAISS nearest-neighbour call `similarity_search_with_score` is an
  external library call; it is modelled as an oracle function from the
  docstore contents, the query and `k` to a list of (document, distance)
  pairs.  Theorems that need FAISS behaviour take its documented
  properties (at most `k` results, ascending non-negative distances,
  results drawn from the stored documents) as explicit hypotheses.
* Disk persistence becomes two extra fields of the store state
  (`disk_index`, `disk_metadata`) plus a `World` record saying which of
  the two save operations fail; `_save_store` / `_save_metadata` catch
  every exception and only log it, which the embedding mirrors by
  returning the state unchanged on failure.
-/

/-! ## Conversation memory (backend/app/memory/conversation.py) -/

/-- One stored chat message: the dicts `{"role": ..., "content": ...}`
appended by `ConversationMemoryManager.add_turn`. -/
structure Msg where
  role : String
  content : String
deriving DecidableEq

/-- Lookup in an insertion-ordered association list (a Python dict). -/
def dictGet {α : Type} : List (String × α) → String → Option α
  | [], _ => none
  | (k, v) :: rest, key => if k = key then some v else dictGet rest key

/-- Update/insert in an insertion-ordered association list: an existing
key keeps its position, a new key is appended (Python dict semantics). -/
def dictSet {α : Type} : List (String × α) → String → α → List (String × α)
  | [], key, v => [(key, v)]
  | (k, w) :: rest, key, v =>
      if k = key then (key, v) :: rest else (k, w) :: dictSet rest key v

/-- Deletion from an association list (Python `del d[key]`). -/
def dictErase {α : Type} : List (String × α) → String → List (String × α)
  | [], _ => []
  | (k, v) :: rest, key =>
      if k = key then dictErase rest key else (k, v) :: dictErase rest key

/-- The `_histories` map of `ConversationMemoryManager`. -/
abbrev Histories := List (String × List Msg)

/-- The history list a session currently holds (absent sessions read as
empty, matching the lazy-creation behaviour observationally). -/
def histOf (h : Histories) (sid : String) : List Msg :=
  (dictGet h sid).getD []

/-- conversation.py lines 31-43: `get_history` lazily creates an empty
history for an unseen session id and returns the session's list. -/
def get_history (h : Histories) (sid : String) : Histories × List Msg :=
  match dictGet h sid with
  | none => (dictSet h sid [], [])
  | some l => (h, l)

/-- conversation.py lines 86-97: append the user message then the
assistant message, then trim to the most recent 20 messages if the
total exceeds 20 (`history[-20:]`). -/
def append_and_trim (l : List Msg) (user_message assistant_message : String) : List Msg :=
  let l1 := l ++ [⟨"user", user_message⟩, ⟨"assistant", assistant_message⟩]
  if l1.length > 20 then l1.drop (l1.length - 20) else l1

/-- conversation.py lines 69-97: `add_turn` (the `if session_id not in`
initialisation plus the two appends plus the trim). -/
def add_turn (h : Histories) (sid user_message assistant_message : String) : Histories :=
  dictSet h sid (append_and_trim (histOf h sid) user_message assistant_message)

/-- conversation.py lines 45-67: `get_recent_context`; note the Python
slice `history[-(n_turns * 2):]` returns the whole list when
`n_turns * 2 == 0`. -/
def get_recent_context (h : Histories) (sid : String) (n_turns : Nat) : Histories × String :=
  let p := get_history h sid
  if p.2 = [] then (p.1, "")
  else
    let recent :=
      if n_turns * 2 = 0 then p.2 else p.2.drop (p.2.length - n_turns * 2)
    (p.1, String.intercalate "\n"
      (recent.map fun m =>
        (if m.role = "user" then "Human" else "Assistant") ++ ": " ++ m.content))

/-- conversation.py lines 99-114: `clear_session`. -/
def clear_session (h : Histories) (sid : String) : Histories × Bool :=
  (dictErase h sid, (dictGet h sid).isSome)

/-- conversation.py lines 116-125: `clear_all`. -/
def clear_all (h : Histories) : Histories × Nat :=
  ([], h.length)

/-- conversation.py lines 127-129: `list_sessions`. -/
def list_sessions (h : Histories) : List String :=
  h.map (·.1)

/-- The public operations of the memory manager, for stating invariants
over arbitrary operation sequences. -/
inductive MemOp where
  | addTurn (sid u a : String)
  | getHistory (sid : String)
  | getRecentContext (sid : String) (n : Nat)
  | clearSession (sid : String)
  | clearAll
  | listSessions

/-- State effect of one memory-manager operation. -/
def applyMemOp (h : Histories) : MemOp → Histories
  | .addTurn sid u a => add_turn h sid u a
  | .getHistory sid => (get_history h sid).1
  | .getRecentContext sid n => (get_recent_context h sid n).1
  | .clearSession sid => (clear_session h sid).1
  | .clearAll => (clear_all h).1
  | .listSessions => h

/-- Run a sequence of memory-manager operations from the initial empty
session map. -/
def runMemOps (ops : List MemOp) : Histories :=
  ops.foldl applyMemOp []

/-- A history is a sequence of complete user/assistant turns: messages
alternate user, assistant, user, assistant, ... and the length is even. -/
def isPaired : List Msg → Bool
  | [] => true
  | [_] => false
  | u :: a :: rest => u.role == "user" && a.role == "assistant" && isPaired rest

/-- The flat message sequence produced by a list of (user, assistant)
turns, in append order. -/
def flatTurns : List (String × String) → List Msg
  | [] => []
  | (u, a) :: rest => ⟨"user", u⟩ :: ⟨"assistant", a⟩ :: flatTurns rest

/-! ## Vector store (backend/app/rag/vector_store.py) -/

/-- The chunk-level metadata dict attached to each stored document
(ingest passes `document_id`, `chunk_id`, `filename`, ...; `.get` reads
with a default, so each key is optional). -/
structure ChunkMeta where
  document_id : Option String
  chunk_id : Option String
  filename : Option String
deriving DecidableEq

/-- A stored chunk: langchain's `Document(page_content, metadata)`. -/
structure Document where
  page_content : String
  metadata : ChunkMeta
deriving DecidableEq

/-- The fields of `DocumentMetadata` (schemas/document.py) the store's
behaviour depends on. -/
structure DocumentMetadata where
  document_id : String
  filename : String
  chunk_count : Nat
deriving DecidableEq

/-- The retrieval-relevant settings (config.py lines 38-40). -/
structure Settings where
  retrieval_top_k : Nat
  retrieval_score_threshold : ℚ

/-- config.py defaults: `retrieval_top_k = 5`,
`retrieval_score_threshold = 0.3`. -/
def get_settings : Settings :=
  { retrieval_top_k := 5, retrieval_score_threshold := 3 / 10 }

/-- Which of the two disk writes fail in a given execution environment. -/
structure World where
  saveLocalFails : Bool
  metadataWriteFails : Bool

/-- State of `VectorStoreService`: the in-memory FAISS docstore
(`none` = uninitialized, as in `_create_new_store`), the in-memory
document-metadata map, and the persisted on-disk copies of both. -/
structure StoreState where
  vector_store : Option (List Document)
  document_metadata : List (String × DocumentMetadata)
  disk_index : Option (List Document)
  disk_metadata : List (String × DocumentMetadata)
deriving DecidableEq

/-- A freshly created empty store (`_create_new_store`, nothing on disk). -/
def newStore : StoreState :=
  { vector_store := none, document_metadata := [],
    disk_index := none, disk_metadata := [] }

/-- vector_store.py lines 98-108: `_save_metadata` writes
`metadata.json`; any exception is caught and only logged, leaving the
on-disk copy unchanged. -/
def save_metadata (w : World) (st : StoreState) : StoreState :=
  if w.metadataWriteFails then st
  else { st with disk_metadata := st.document_metadata }

/-- vector_store.py lines 110-118: `_save_store` does nothing when the
index is uninitialized; otherwise it runs `save_local` then
`_save_metadata`, catching (and only logging) any exception. -/
def save_store (w : World) (st : StoreState) : StoreState :=
  match st.vector_store with
  | none => st
  | some _ =>
      if w.saveLocalFails then st
      else save_metadata w { st with disk_index := st.vector_store }

/-- The `Document(page_content=text, metadata=meta) for text, meta in
zip(texts, metadatas)` comprehension of `add_documents`. -/
def mkDocuments (texts : List String) (metadatas : List ChunkMeta) : List Document :=
  List.zipWith (fun t m => { page_content := t, metadata := m }) texts metadatas

/-- vector_store.py lines 120-160: `add_documents`.  The FAISS
construction / extension calls are modelled as appending the documents;
the persistence step catches its own errors, so the method always
returns normally (`Except.ok`) with the chunk ids. -/
def add_documents (w : World) (st : StoreState) (texts : List String)
    (metadatas : List ChunkMeta) (dm : DocumentMetadata) :
    Except String (StoreState × List String) :=
  let documents := mkDocuments texts metadatas
  let store1 : Option (List Document) :=
    match st.vector_store with
    | none => some documents
    | some ds => some (ds ++ documents)
  let st1 := { st with
    vector_store := store1,
    document_metadata := dictSet st.document_metadata dm.document_id dm }
  let st2 := save_store w st1
  let chunk_ids := metadatas.enum.map fun p => p.2.chunk_id.getD ("chunk_" ++ toString p.1)
  .ok (st2, chunk_ids)

/-- vector_store.py lines 162-196: `delete_document`: unknown ids return
`false` without touching anything; otherwise every docstore entry whose
metadata `document_id` matches is deleted, the record is removed and the
store persisted (persistence errors again caught inside `_save_store`). -/
def delete_document (w : World) (st : StoreState) (document_id : String) :
    Except String (StoreState × Bool) :=
  match dictGet st.document_metadata document_id with
  | none => .ok (st, false)
  | some _ =>
      let store1 : Option (List Document) :=
        match st.vector_store with
        | none => none
        | some ds => some (ds.filter fun d => decide (d.metadata.document_id ≠ some document_id))
      let st1 := { st with
        vector_store := store1,
        document_metadata := dictErase st.document_metadata document_id }
      .ok (save_store w st1, true)

/-- The state reached by `add_documents` (which never raises). -/
def add_documentsRun (w : World) (st : StoreState) (texts : List String)
    (metadatas : List ChunkMeta) (dm : DocumentMetadata) : StoreState :=
  match add_documents w st texts metadatas dm with
  | .ok (st2, _) => st2
  | .error _ => st

/-- The state reached by `delete_document` (which never raises). -/
def delete_documentRun (w : World) (st : StoreState) (document_id : String) : StoreState :=
  match delete_document w st document_id with
  | .ok (st2, _) => st2
  | .error _ => st

/-- vector_store.py lines 250-260: `clear` drops the index and metadata
and unlinks every persisted file. -/
def clear (_st : StoreState) : StoreState :=
  { vector_store := none, document_metadata := [],
    disk_index := none, disk_metadata := [] }

/-- vector_store.py lines 242-244: `get_document`. -/
def get_document (st : StoreState) (document_id : String) : Option DocumentMetadata :=
  dictGet st.document_metadata document_id

/-- vector_store.py lines 238-240: `get_all_documents`. -/
def get_all_documents (st : StoreState) : List DocumentMetadata :=
  st.document_metadata.map (·.2)

/-- Python `x or default` for an optional float parameter: `None` and
`0.0` are falsy, every other value is returned as-is. -/
def pyOrRat (x : Option ℚ) (dflt : ℚ) : ℚ :=
  match x with
  | none => dflt
  | some v => if v = 0 then dflt else v

/-- Python `x or default` for an optional int parameter. -/
def pyOrNat (x : Option Nat) (dflt : Nat) : Nat :=
  match x with
  | none => dflt
  | some v => if v = 0 then dflt else v

/-- Model of the external FAISS call
`self._vector_store.similarity_search_with_score(query, k)`: a function
from the current docstore contents, the query and `k` to (document,
distance) pairs. -/
abbrev NNOracle := List Document → String → Nat → List (Document × ℚ)

/-- vector_store.py lines 198-236: `similarity_search`: empty result on
an uninitialized index; otherwise the effective threshold is
`score_threshold or settings.retrieval_score_threshold`, each raw hit's
distance is converted via `similarity = 1 / (1 + distance)` and hits
below the threshold are dropped, preserving order. -/
def similarity_search (nn : NNOracle) (st : StoreState) (query : String) (k : Nat)
    (score_threshold : Option ℚ) : List (Document × ℚ) :=
  match st.vector_store with
  | none => []
  | some ds =>
      let threshold := pyOrRat score_threshold get_settings.retrieval_score_threshold
      let results := nn ds query k
      (results.map fun p => (p.1, 1 / (1 + p.2))).filter fun p => decide (threshold ≤ p.2)

/-- Number of chunks currently stored whose metadata carries the given
document id (0 on an uninitialized index). -/
def countChunks (st : StoreState) (document_id : String) : Nat :=
  match st.vector_store with
  | none => 0
  | some ds => (ds.filter fun d => decide (d.metadata.document_id = some document_id)).length

/-! ## Retriever (backend/app/rag/retriever.py) and utils.truncate_text -/

/-- utils.py lines 142-156: `truncate_text`; Python defaults are
`max_length = 500`, `suffix = "..."`, the retriever calls it with
`max_length = 150`. -/
def truncate_text (text : String) (max_length : Nat) (suffix : String) : String :=
  if text.length ≤ max_length then text
  else text.take (max_length - suffix.length) ++ suffix

/-- schemas/response.py: the `SourceReference` fields built by the
retriever. -/
structure SourceReference where
  document : String
  chunk_id : String
  content_preview : String
deriving DecidableEq

/-- retriever.py lines 17-23: `RetrievalResult`. -/
structure RetrievalResult where
  context : String
  sources : List SourceReference
  has_relevant_content : Bool
  top_score : ℚ
deriving DecidableEq

/-- retriever.py lines 51-60: the defaulted arguments and the underlying
`similarity_search` call made by `retrieve`. -/
def retrieveResults (nn : NNOracle) (st : StoreState) (query : String)
    (k : Option Nat) (score_threshold : Option ℚ) : List (Document × ℚ) :=
  similarity_search nn st query (pyOrNat k get_settings.retrieval_top_k)
    (some (pyOrRat score_threshold get_settings.retrieval_score_threshold))

/-- retriever.py lines 34-99: `retrieve`. -/
def retrieve (nn : NNOracle) (st : StoreState) (query : String)
    (k : Option Nat) (score_threshold : Option ℚ) : RetrievalResult :=
  let results := retrieveResults nn st query k score_threshold
  if results = [] then
    { context := "", sources := [], has_relevant_content := false, top_score := 0 }
  else
    let top_score := results.foldl (fun acc p => max acc p.2) 0
    let context_parts := results.map fun p => p.1.page_content
    let sources := results.map fun p =>
      { document := p.1.metadata.filename.getD "Unknown",
        chunk_id := p.1.metadata.chunk_id.getD "unknown",
        content_preview := truncate_text p.1.page_content 150 "..." : SourceReference }
    { context := String.intercalate "\n\n---\n\n" context_parts,
      sources := sources, has_relevant_content := true, top_score := top_score }

/-! ## Lock/effect traces (vector_store.py lines 26-36 and the method
bodies), for the concurrency-discipline claim -/

/-- The lock and mutation effects a `VectorStoreService` method performs,
in source order. -/
inductive StoreAction where
  | acquireLock
  | releaseLock
  | mutateIndex
  | mutateMetadataMap
  | writeIndexFile
  | writeMetadataFile
  | deleteFiles
deriving DecidableEq

/-- vector_store.py lines 29-36: the only use of `_lock` in the class —
`with cls._lock` around first-time singleton construction in `__new__`. -/
def newInstanceActions : List StoreAction :=
  [.acquireLock, .releaseLock]

/-- vector_store.py lines 120-160 (`add_documents`): FAISS index
mutation, metadata-map write, `save_local`, `metadata.json` write; the
body performs no lock operation. -/
def add_documentsActions : List StoreAction :=
  [.mutateIndex, .mutateMetadataMap, .writeIndexFile, .writeMetadataFile]

/-- vector_store.py lines 162-196 (`delete_document`): same effect
shape; no lock operation. -/
def delete_documentActions : List StoreAction :=
  [.mutateIndex, .mutateMetadataMap, .writeIndexFile, .writeMetadataFile]

/-- vector_store.py lines 250-260 (`clear`): drops the index and
metadata map and unlinks the persisted files; no lock operation. -/
def clearActions : List StoreAction :=
  [.mutateIndex, .mutateMetadataMap, .deleteFiles]

/-! ## Reachability discipline for the chunk-count invariant (C3) -/

/-- Store states reachable when every insert is well-formed (texts and
metadatas zip exactly, every chunk is tagged with the record's id, the
record's `chunk_count` is the number of chunks) and uses a fresh
document id (no record and no chunk already under that id); deletes and
clears are unrestricted. -/
inductive GoodReach : StoreState → Prop where
  | init : GoodReach newStore
  | insert (w : World) (st : StoreState) (texts : List String)
      (metadatas : List ChunkMeta) (dm : DocumentMetadata) :
      GoodReach st →
      texts.length = metadatas.length →
      dm.chunk_count = texts.length →
      (∀ m ∈ metadatas, m.document_id = some dm.document_id) →
      dictGet st.document_metadata dm.document_id = none →
      countChunks st dm.document_id = 0 →
      GoodReach (add_documentsRun w st texts metadatas dm)
  | del (w : World) (st : StoreState) (document_id : String) :
      GoodReach st → GoodReach (delete_documentRun w st document_id)
  | wipe (st : StoreState) : GoodReach st → GoodReach (clear st)

/-! ## Witness data (concrete worlds, chunks and states) -/

/-- An execution environment where both disk writes succeed. -/
def wOk : World := ⟨false, false⟩

/-- An execution environment where both disk writes fail. -/
def wFail : World := ⟨true, true⟩

/-- A concrete chunk metadata dict tagged with document id "d". -/
def mA : ChunkMeta := ⟨some "d", some "c0", some "f"⟩

/-- A concrete document record for id "d" with one chunk. -/
def dmA : DocumentMetadata := ⟨"d", "f", 1⟩

/-- A concrete stored chunk. -/
def docA : Document := ⟨"hello", mA⟩

/-- Store holding the single document "d" with one chunk, nothing on disk. -/
def stA : StoreState :=
  { vector_store := some [docA], document_metadata := [("d", dmA)],
    disk_index := none, disk_metadata := [] }

/-- The state `delete_document wOk stA "d"` reaches. -/
def stAdel : StoreState :=
  { vector_store := some [], document_metadata := [],
    disk_index := some [], disk_metadata := [] }

/-- State after one well-formed insert of document "d" into a new store. -/
def c3st1 : StoreState := add_documentsRun wOk newStore ["x"] [mA] dmA

/-- State after inserting document "d" a second time (same id). -/
def c3st2 : StoreState := add_documentsRun wOk c3st1 ["y"] [mA] dmA

/-- A nearest-neighbour oracle returning the first `k` stored chunks at
distance 0. -/
def nnTake : NNOracle := fun ds _ k => (ds.map fun d => (d, (0 : ℚ))).take k

/-- A nearest-neighbour oracle returning every stored chunk at distance 0. -/
def nnAll : NNOracle := fun ds _ _ => ds.map fun d => (d, (0 : ℚ))

/-- A 151-character chunk text (one character beyond the preview limit). -/
def longText : String := String.mk (List.replicate 151 'a')

/-- A chunk whose text is longer than 150 characters. -/
def docLong : Document := ⟨longText, mA⟩

/-- Store holding only the long chunk. -/
def stLong : StoreState :=
  { vector_store := some [docLong], document_metadata := [],
    disk_index := none, disk_metadata := [] }

/-- A second chunk metadata dict, tagged with document id "e". -/
def mB : ChunkMeta := ⟨some "e", some "c1", some "f"⟩

/-- A second document record for id "e" with one chunk. -/
def dmB : DocumentMetadata := ⟨"e", "f", 1⟩

/-- A second stored chunk belonging to document "e". -/
def docB : Document := ⟨"world", mB⟩

/-- Store holding documents "d" and "e" with one chunk each. -/
def stAB : StoreState :=
  { vector_store := some [docA, docB], document_metadata := [("d", dmA), ("e", dmB)],
    disk_index := none, disk_metadata := [] }

/-- The state `delete_document wOk stAB "d"` reaches. -/
def stABdel : StoreState :=
  { vector_store := some [docB], document_metadata := [("e", dmB)],
    disk_index := some [docB], disk_metadata := [("e", dmB)] }

/-- Per-session invariant of the memory manager: every history is a
sequence of complete user/assistant turns of at most 20 messages. -/
def MemInv (h : Histories) : Prop :=
  ∀ sid, isPaired (histOf h sid) = true ∧ (histOf h sid).length ≤ 20

/-! # Lemmas -/

theorem dictGet_dictSet_self {α : Type} (m : List (String × α)) (k : String) (v : α) :
    dictGet (dictSet m k v) k = some v := by
  induction m with
  | nil => simp [dictGet, dictSet]
  | cons p rest ih =>
      obtain ⟨a, b⟩ := p
      by_cases h : a = k
      · simp [dictSet, h, dictGet]
      · simp [dictSet, h, dictGet, ih]

theorem dictGet_dictSet_ne {α : Type} (m : List (String × α)) (k k' : String) (v : α)
    (h : k ≠ k') : dictGet (dictSet m k v) k' = dictGet m k' := by
  induction m with
  | nil => simp [dictGet, dictSet, h]
  | cons p rest ih =>
      obtain ⟨a, b⟩ := p
      by_cases ha : a = k
      · subst ha; simp [dictSet, dictGet, h, Ne.symm h]
      · simp only [dictSet, ha, if_false, dictGet]
        by_cases ha' : a = k' <;> simp [ha', ih]

theorem dictGet_dictErase_self {α : Type} (m : List (String × α)) (k : String) :
    dictGet (dictErase m k) k = none := by
  induction m with
  | nil => rfl
  | cons p rest ih =>
      obtain ⟨a, b⟩ := p
      by_cases h : a = k
      · simp [dictErase, h, ih]
      · simp [dictErase, h, dictGet, ih]

theorem dictGet_dictErase_ne {α : Type} (m : List (String × α)) (k k' : String)
    (h : k ≠ k') : dictGet (dictErase m k) k' = dictGet m k' := by
  induction m with
  | nil => rfl
  | cons p rest ih =>
      obtain ⟨a, b⟩ := p
      by_cases ha : a = k
      · subst ha; simp [dictErase, dictGet, h, ih]
      · simp only [dictErase, ha, if_false, dictGet]
        by_cases ha' : a = k' <;> simp [ha', ih]

theorem histOf_add_turn_self (h : Histories) (sid u a : String) :
    histOf (add_turn h sid u a) sid = append_and_trim (histOf h sid) u a := by
  unfold add_turn histOf
  rw [dictGet_dictSet_self]
  rfl

theorem histOf_add_turn_ne (h : Histories) (sid s u a : String) (hne : sid ≠ s) :
    histOf (add_turn h sid u a) s = histOf h s := by
  unfold add_turn histOf
  rw [dictGet_dictSet_ne _ _ _ _ hne]

theorem append_and_trim_eq (l : List Msg) (u a : String) :
    append_and_trim l u a =
      (l ++ [Msg.mk "user" u, Msg.mk "assistant" a]).drop ((l.length + 2) - 20) := by
  simp only [append_and_trim]
  by_cases h : (l ++ [Msg.mk "user" u, Msg.mk "assistant" a]).length > 20
  · simp only [h, if_true]
    congr 1
    simp [List.length_append]
  · simp only [h, if_false]
    have hl : l.length + 2 ≤ 20 := by
      simpa [List.length_append] using Nat.not_lt.mp h
    have h0 : l.length + 2 - 20 = 0 := by omega
    rw [h0, List.drop_zero]

theorem append_and_trim_drop (f : List Msg) (u a : String) :
    append_and_trim (f.drop (f.length - 20)) u a =
      (f ++ [Msg.mk "user" u, Msg.mk "assistant" a]).drop ((f.length + 2) - 20) := by
  rw [append_and_trim_eq]
  simp only [List.drop_append_eq_append_drop, List.drop_drop, List.length_drop]
  have e1 : f.length - 20 + (f.length - (f.length - 20) + 2 - 20) = f.length + 2 - 20 := by
    omega
  have e2 : f.length - (f.length - 20) + 2 - 20 - (f.length - (f.length - 20))
      = f.length + 2 - 20 - f.length := by omega
  rw [e1, e2]

theorem flatTurns_append (t1 t2 : List (String × String)) :
    flatTurns (t1 ++ t2) = flatTurns t1 ++ flatTurns t2 := by
  induction t1 with
  | nil => rfl
  | cons p rest ih => obtain ⟨u, a⟩ := p; simp [flatTurns, ih]

theorem flatTurns_length (t : List (String × String)) :
    (flatTurns t).length = 2 * t.length := by
  induction t with
  | nil => rfl
  | cons p rest ih => obtain ⟨u, a⟩ := p; simp [flatTurns, ih]; omega

theorem fold_add_turn_eq (sid : String) (turns : List (String × String)) :
    histOf (turns.foldl (fun h t => add_turn h sid t.1 t.2) []) sid
      = (flatTurns turns).drop ((flatTurns turns).length - 20) := by
  induction turns using List.reverseRecOn with
  | nil => simp [histOf, dictGet, flatTurns]
  | append_singleton rest t ih =>
      obtain ⟨u, a⟩ := t
      rw [List.foldl_append, List.foldl_cons, List.foldl_nil]
      rw [histOf_add_turn_self, ih]
      rw [flatTurns_append]
      have hfl : flatTurns [(u, a)] = [Msg.mk "user" u, Msg.mk "assistant" a] := rfl
      rw [hfl]
      have hlen : (flatTurns rest ++ [Msg.mk "user" u, Msg.mk "assistant" a]).length - 20
          = ((flatTurns rest).length + 2) - 20 := by
        simp [List.length_append]
      rw [hlen]
      exact append_and_trim_drop (flatTurns rest) u a

/-- C5: for every session and every sequence of N `add_turn` calls
starting from no history, the stored history is exactly the last
`min(2*N, 20)` of the 2*N appended messages in original order, so its
length is `min(2*N, 20)`. -/
theorem c5_add_turn_bound (sid : String) (turns : List (String × String)) :
    histOf (turns.foldl (fun h t => add_turn h sid t.1 t.2) []) sid
      = (flatTurns turns).drop ((flatTurns turns).length - 20)
    ∧ (histOf (turns.foldl (fun h t => add_turn h sid t.1 t.2) []) sid).length
      = min (2 * turns.length) 20 := by
  refine ⟨fold_add_turn_eq sid turns, ?_⟩
  rw [fold_add_turn_eq sid turns, List.length_drop, flatTurns_length]
  omega

theorem isPaired_append_pair : ∀ (l : List Msg) (u a : String),
    isPaired l = true →
    isPaired (l ++ [Msg.mk "user" u, Msg.mk "assistant" a]) = true
  | [], _, _, _ => by simp [isPaired]
  | [_], _, _, h => by simp [isPaired] at h
  | x :: y :: rest, u, a, h => by
      simp only [isPaired, Bool.and_eq_true, beq_iff_eq] at h
      simp only [List.cons_append, isPaired, Bool.and_eq_true, beq_iff_eq]
      exact ⟨⟨h.1.1, h.1.2⟩, isPaired_append_pair rest u a h.2⟩

theorem isPaired_length_even : ∀ (l : List Msg), isPaired l = true → l.length % 2 = 0
  | [], _ => rfl
  | [_], h => by simp [isPaired] at h
  | _ :: _ :: rest, h => by
      simp only [isPaired, Bool.and_eq_true] at h
      have ih := isPaired_length_even rest h.2
      simp only [List.length_cons]
      omega

theorem isPaired_drop_two : ∀ (l : List Msg), isPaired l = true → isPaired (l.drop 2) = true
  | [], _ => rfl
  | [_], h => by simp [isPaired] at h
  | _ :: _ :: rest, h => by
      simp only [isPaired, Bool.and_eq_true] at h
      simp only [List.drop_succ_cons, List.drop_zero]
      exact h.2

theorem isPaired_drop_even (m : Nat) : ∀ (l : List Msg),
    isPaired l = true → isPaired (l.drop (2 * m)) = true := by
  induction m with
  | zero =>
      intro l h
      rw [Nat.mul_zero, List.drop_zero]
      exact h
  | succ n ih =>
      intro l h
      have h2 := ih _ (isPaired_drop_two l h)
      rw [List.drop_drop] at h2
      have e : 2 * (n + 1) = 2 + 2 * n := by omega
      rw [e]
      exact h2

theorem append_and_trim_inv (l : List Msg) (u a : String) (h : isPaired l = true) :
    isPaired (append_and_trim l u a) = true ∧ (append_and_trim l u a).length ≤ 20 := by
  have hp := isPaired_append_pair l u a h
  have hev := isPaired_length_even _ hp
  rw [append_and_trim_eq]
  constructor
  · have e : l.length + 2 - 20 = 2 * ((l.length + 2 - 20) / 2) := by
      simp only [List.length_append, List.length_cons, List.length_nil] at hev
      omega
    rw [e]
    exact isPaired_drop_even _ _ hp
  · rw [List.length_drop]
    simp only [List.length_append, List.length_cons, List.length_nil]
    omega

theorem get_history_fst_memInv (h : Histories) (sid : String) (hinv : MemInv h) :
    MemInv (get_history h sid).1 := by
  unfold get_history
  cases hg : dictGet h sid with
  | some l => exact hinv
  | none =>
      intro s
      by_cases hs : sid = s
      · subst hs
        unfold histOf
        rw [dictGet_dictSet_self]
        simp [isPaired]
      · unfold histOf
        rw [dictGet_dictSet_ne _ _ _ _ hs]
        exact hinv s

theorem get_recent_context_fst (h : Histories) (sid : String) (n : Nat) :
    (get_recent_context h sid n).1 = (get_history h sid).1 := by
  unfold get_recent_context
  by_cases hc : (get_history h sid).2 = [] <;> simp [hc]

theorem applyMemOp_memInv (h : Histories) (op : MemOp) (hinv : MemInv h) :
    MemInv (applyMemOp h op) := by
  cases op with
  | addTurn sid u a =>
      intro s
      simp only [applyMemOp]
      by_cases hs : sid = s
      · subst hs
        rw [histOf_add_turn_self]
        exact append_and_trim_inv _ u a (hinv sid).1
      · rw [histOf_add_turn_ne h sid s u a hs]
        exact hinv s
  | getHistory sid => exact get_history_fst_memInv h sid hinv
  | getRecentContext sid n =>
      simp only [applyMemOp]
      rw [get_recent_context_fst]
      exact get_history_fst_memInv h sid hinv
  | clearSession sid =>
      intro s
      simp only [applyMemOp, clear_session]
      by_cases hs : sid = s
      · subst hs
        unfold histOf
        rw [dictGet_dictErase_self]
        simp [isPaired]
      · unfold histOf
        rw [dictGet_dictErase_ne _ _ _ hs]
        exact hinv s
  | clearAll =>
      intro s
      simp [applyMemOp, clear_all, histOf, dictGet, isPaired]
  | listSessions => exact hinv

theorem memInv_foldl : ∀ (ops : List MemOp) (h : Histories),
    MemInv h → MemInv (ops.foldl applyMemOp h)
  | [], _, hi => hi
  | op :: rest, h, hi => memInv_foldl rest _ (applyMemOp_memInv h op hi)

/-- C6: whatever sequence of memory-manager operations runs from the
initial state, every session's history is an even-length alternating
user/assistant sequence of at most 20 messages. -/
theorem c6_history_invariant (ops : List MemOp) (sid : String) :
    isPaired (histOf (runMemOps ops) sid) = true
    ∧ (histOf (runMemOps ops) sid).length % 2 = 0
    ∧ (histOf (runMemOps ops) sid).length ≤ 20 := by
  have hinv : MemInv (runMemOps ops) := by
    unfold runMemOps
    refine memInv_foldl ops [] ?_
    intro s
    simp [histOf, dictGet, isPaired]
  obtain ⟨h1, h2⟩ := hinv sid
  exact ⟨h1, isPaired_length_even _ h1, h2⟩

theorem save_metadata_vector_store (w : World) (st : StoreState) :
    (save_metadata w st).vector_store = st.vector_store := by
  unfold save_metadata
  by_cases hm : w.metadataWriteFails <;> simp [hm]

theorem save_metadata_document_metadata (w : World) (st : StoreState) :
    (save_metadata w st).document_metadata = st.document_metadata := by
  unfold save_metadata
  by_cases hm : w.metadataWriteFails <;> simp [hm]

theorem save_store_vector_store (w : World) (st : StoreState) :
    (save_store w st).vector_store = st.vector_store := by
  unfold save_store
  cases hv : st.vector_store with
  | none => simp [hv]
  | some ds =>
      by_cases hw : w.saveLocalFails
      · simp [hw, hv]
      · simp [hw, save_metadata_vector_store, hv]

theorem save_store_document_metadata (w : World) (st : StoreState) :
    (save_store w st).document_metadata = st.document_metadata := by
  unfold save_store
  cases hv : st.vector_store with
  | none => simp
  | some ds =>
      by_cases hw : w.saveLocalFails
      · simp [hw]
      · simp [hw, save_metadata_document_metadata]

theorem save_store_disk_unchanged (w : World) (st : StoreState)
    (hw : w.saveLocalFails = true) :
    (save_store w st).disk_index = st.disk_index
    ∧ (save_store w st).disk_metadata = st.disk_metadata := by
  unfold save_store
  cases hv : st.vector_store with
  | none => exact ⟨rfl, rfl⟩
  | some ds => simp [hw]

/-- C8: `delete_document` on an id absent from the metadata map returns
`false`, raises nothing, and leaves the whole store state — in-memory
index, metadata map and both persisted files — untouched. -/
theorem c8_delete_unknown (w : World) (st : StoreState) (document_id : String)
    (h : dictGet st.document_metadata document_id = none) :
    delete_document w st document_id = .ok (st, false) := by
  unfold delete_document
  rw [h]

/-- C8 witness: deleting "doc_x" from an empty store returns `false`
with the state unchanged. -/
theorem c8_witness : delete_document wOk newStore "doc_x" = .ok (newStore, false) :=
  c8_delete_unknown wOk newStore "doc_x" rfl

/-- C9 counterexample: the claim says `add_documents` acquires the
store's exclusive lock for its mutation, but its effect trace contains
no lock acquisition at all — the class lock is used only by `__new__`. -/
theorem c9_counterexample :
    add_documentsActions.contains StoreAction.acquireLock = false := by decide

/-- C9 (amended): none of the mutating operations (`add_documents`,
`delete_document`, `clear`) acquires or releases any lock; the only
lock use in `VectorStoreService` is the `with cls._lock` guarding
first-time singleton construction in `__new__`, so concurrent mutations
of the index and its persisted files are not mutually excluded. -/
theorem c9_no_mutation_lock :
    add_documentsActions.all
      (fun a => !(a == StoreAction.acquireLock) && !(a == StoreAction.releaseLock)) = true
    ∧ delete_documentActions.all
      (fun a => !(a == StoreAction.acquireLock) && !(a == StoreAction.releaseLock)) = true
    ∧ clearActions.all
      (fun a => !(a == StoreAction.acquireLock) && !(a == StoreAction.releaseLock)) = true
    ∧ newInstanceActions.contains StoreAction.acquireLock = true := by decide

/-- C10: passing the falsy values `score_threshold = 0.0` / `k = 0`
makes the `or`-defaulting fall back to the configured defaults
(`0.3` and `5`), exactly as if the caller had passed `None`, so these
parameters cannot request an unfiltered threshold-zero search. -/
theorem c10_falsy_defaults (nn : NNOracle) (st : StoreState) (query : String) (k : Nat)
    (ko : Option Nat) (tho : Option ℚ) :
    similarity_search nn st query k (some 0) = similarity_search nn st query k none
    ∧ pyOrRat (some 0) get_settings.retrieval_score_threshold = 3 / 10
    ∧ pyOrNat (some 0) get_settings.retrieval_top_k = 5
    ∧ retrieve nn st query (some 0) tho = retrieve nn st query none tho
    ∧ retrieve nn st query ko (some 0) = retrieve nn st query ko none := by
  have hr : pyOrRat (some 0) get_settings.retrieval_score_threshold
      = pyOrRat none get_settings.retrieval_score_threshold := by
    simp [pyOrRat]
  have hn : pyOrNat (some 0) get_settings.retrieval_top_k
      = pyOrNat none get_settings.retrieval_top_k := by
    simp [pyOrNat]
  refine ⟨?_, by simp [pyOrRat, get_settings], by simp [pyOrNat, get_settings], ?_, ?_⟩
  · unfold similarity_search
    cases st.vector_store <;> simp [hr]
  · unfold retrieve retrieveResults
    rw [hn]
  · unfold retrieve retrieveResults
    rw [hr]

/-- C1: with the FAISS call returning at most `k` hits sorted by
ascending non-negative distance, `similarity_search` returns at most
`k` (chunk, similarity) pairs, each similarity is `1 / (1 + distance)`
of a raw hit, every returned similarity clears both the effective
threshold and any explicitly passed `score_threshold`, the list is
ordered by descending similarity, it is empty when no hit clears the
threshold, and it is empty (not an error) on an uninitialized index. -/
theorem c1_similarity_search (nn : NNOracle) (ds : List Document) (st : StoreState)
    (query : String) (k : Nat) (score_threshold : Option ℚ)
    (hst : st.vector_store = some ds)
    (hlen : (nn ds query k).length ≤ k)
    (hsorted : (nn ds query k).Pairwise fun p r => p.2 ≤ r.2)
    (hnneg : ∀ p ∈ nn ds query k, 0 ≤ p.2) :
    (similarity_search nn st query k score_threshold).length ≤ k
    ∧ (∀ p ∈ similarity_search nn st query k score_threshold,
        ∃ d, (p.1, d) ∈ nn ds query k ∧ p.2 = 1 / (1 + d))
    ∧ (∀ p ∈ similarity_search nn st query k score_threshold,
        pyOrRat score_threshold get_settings.retrieval_score_threshold ≤ p.2)
    ∧ (∀ v, score_threshold = some v →
        ∀ p ∈ similarity_search nn st query k score_threshold, v ≤ p.2)
    ∧ (similarity_search nn st query k score_threshold).Pairwise (fun p r => r.2 ≤ p.2)
    ∧ ((∀ p ∈ nn ds query k,
          1 / (1 + p.2) < pyOrRat score_threshold get_settings.retrieval_score_threshold) →
        similarity_search nn st query k score_threshold = [])
    ∧ (∀ st2 : StoreState, st2.vector_store = none →
        similarity_search nn st2 query k score_threshold = []) := by
  have hs : similarity_search nn st query k score_threshold
      = ((nn ds query k).map fun p => (p.1, 1 / (1 + p.2))).filter
          (fun p => decide (pyOrRat score_threshold get_settings.retrieval_score_threshold ≤ p.2)) := by
    simp [similarity_search, hst]
  have hthr : ∀ p ∈ similarity_search nn st query k score_threshold,
      pyOrRat score_threshold get_settings.retrieval_score_threshold ≤ p.2 := by
    intro p hp
    rw [hs] at hp
    exact of_decide_eq_true (List.mem_filter.mp hp).2
  refine ⟨?_, ?_, hthr, ?_, ?_, ?_, ?_⟩
  · rw [hs]
    calc (((nn ds query k).map fun p => (p.1, 1 / (1 + p.2))).filter _).length
        ≤ ((nn ds query k).map fun p => (p.1, 1 / (1 + p.2))).length :=
          List.length_filter_le _ _
      _ = (nn ds query k).length := List.length_map _ _
      _ ≤ k := hlen
  · intro p hp
    rw [hs] at hp
    rcases List.mem_map.mp (List.mem_of_mem_filter hp) with ⟨q, hq, rfl⟩
    exact ⟨q.2, by simpa using hq, rfl⟩
  · intro v hv p hp
    have h1 := hthr p hp
    rw [hv] at h1
    unfold pyOrRat at h1
    by_cases h0 : v = 0
    · subst h0
      simp only [if_true, reduceIte] at h1
      have : (0 : ℚ) ≤ 3 / 10 := by norm_num
      calc (0 : ℚ) ≤ 3 / 10 := this
        _ = get_settings.retrieval_score_threshold := by norm_num [get_settings]
        _ ≤ p.2 := h1
    · simpa [h0] using h1
  · rw [hs]
    apply List.Pairwise.filter
    rw [List.pairwise_map]
    refine hsorted.imp_of_mem ?_
    intro a b ha hb hab
    have h0a := hnneg a ha
    have h1 : (0 : ℚ) < 1 + a.2 := by linarith
    have h2 : 1 + a.2 ≤ 1 + b.2 := by linarith
    exact one_div_le_one_div_of_le h1 h2
  · intro hall
    rw [hs]
    rw [List.filter_eq_nil_iff]
    intro p hp
    rcases List.mem_map.mp hp with ⟨q, hq, rfl⟩
    simp only [decide_eq_true_eq]
    exact not_le.mpr (hall q hq)
  · intro st2 h2
    simp [similarity_search, h2]

/-- C1 witness: a concrete one-chunk store and a concrete oracle
satisfying the FAISS-call hypotheses. -/
theorem c1_witness : (similarity_search nnTake stA "q" 1 (some (1 / 2))).length ≤ 1 :=
  (c1_similarity_search nnTake [docA] stA "q" 1 (some (1 / 2)) rfl
    (by decide)
    (by simp [nnTake])
    (by decide)).1

/-- C2 counterexample: with both disk writes failing
(`wFail.saveLocalFails = true`), `add_documents` still returns normally
with the chunk ids — the persistence error is caught and logged inside
`_save_store`, not surfaced to the caller as a failure. -/
theorem c2_counterexample :
    wFail.saveLocalFails = true
    ∧ add_documents wFail newStore ["hello"] [mA] dmA = .ok (stA, ["c0"])
    ∧ stA.disk_index = none := by
  exact ⟨rfl, rfl, rfl⟩

theorem save_store_disk_metadata_stale (w : World) (st : StoreState)
    (hw : w.saveLocalFails = true ∨ w.metadataWriteFails = true) :
    (save_store w st).disk_metadata = st.disk_metadata := by
  unfold save_store save_metadata
  cases hv : st.vector_store with
  | none => rfl
  | some ds =>
      rcases hw with h | h
      · simp [h]
      · by_cases h2 : w.saveLocalFails
        · simp [h2]
        · simp [h2, h]

/-- C2 (amended): when persisting fails — whether the index save
(`save_local`) or the metadata dump fails — `add_documents` and
`delete_document` still complete normally (no error is raised or
returned) and the in-memory state keeps the change: the failure is
caught and only logged, never surfaced.  The on-disk metadata map is
left stale in either failure mode (it is written only after a
successful index save, and its own failure is swallowed); the on-disk
index file is additionally left unchanged when the index save itself
fails. -/
theorem c2_persistence_swallowed (w : World) (st : StoreState) (texts : List String)
    (metadatas : List ChunkMeta) (dm : DocumentMetadata) (document_id : String)
    (hw : w.saveLocalFails = true ∨ w.metadataWriteFails = true) :
    (∃ st2 ids, add_documents w st texts metadatas dm = .ok (st2, ids)
      ∧ dictGet st2.document_metadata dm.document_id = some dm
      ∧ st2.vector_store = some (st.vector_store.getD [] ++ mkDocuments texts metadatas)
      ∧ st2.disk_metadata = st.disk_metadata
      ∧ (w.saveLocalFails = true → st2.disk_index = st.disk_index))
    ∧ (∃ st3 b, delete_document w st document_id = .ok (st3, b)
      ∧ st3.disk_metadata = st.disk_metadata
      ∧ (w.saveLocalFails = true → st3.disk_index = st.disk_index)) := by
  constructor
  · unfold add_documents
    refine ⟨_, _, rfl, ?_, ?_, ?_, ?_⟩
    · rw [save_store_document_metadata]
      exact dictGet_dictSet_self _ _ _
    · rw [save_store_vector_store]
      cases st.vector_store <;> simp
    · exact save_store_disk_metadata_stale w _ hw
    · intro hsl
      exact (save_store_disk_unchanged w _ hsl).1
  · unfold delete_document
    cases hg : dictGet st.document_metadata document_id with
    | none => exact ⟨st, false, rfl, rfl, fun _ => rfl⟩
    | some dmx =>
        refine ⟨_, true, rfl, ?_, ?_⟩
        · exact save_store_disk_metadata_stale w _ hw
        · intro hsl
          exact (save_store_disk_unchanged w _ hsl).1

/-- C2 witness: the in-memory metadata map of the state reached under a
failing disk holds the new record. -/
theorem c2_witness : dictGet stA.document_metadata "d" = some dmA := by
  obtain ⟨⟨st2, ids, heq, hmd, _, _, _⟩, _⟩ :=
    c2_persistence_swallowed wFail newStore ["hello"] [mA] dmA "x" (Or.inl rfl)
  have h2 : (st2, ids) = (stA, ["c0"]) :=
    Except.ok.inj (heq.symm.trans rfl)
  have h3 : st2 = stA := congrArg Prod.fst h2
  rw [← h3]
  exact hmd

/-- C7: once `delete_document(document_id)` has returned `true`, no
subsequent `similarity_search` (any query, `k`, threshold; any oracle
drawing its hits from the stored chunks) returns a chunk tagged with
that document id, and `get_document(document_id)` returns `none`. -/
theorem c7_delete_then_search (w : World) (st st2 : StoreState) (document_id : String)
    (hdel : delete_document w st document_id = .ok (st2, true))
    (nn : NNOracle)
    (hnn : ∀ ds query k p, p ∈ nn ds query k → p.1 ∈ ds) :
    (∀ (query : String) (k : Nat) (score_threshold : Option ℚ) (p : Document × ℚ),
      p ∈ similarity_search nn st2 query k score_threshold →
      p.1.metadata.document_id ≠ some document_id)
    ∧ get_document st2 document_id = none := by
  unfold delete_document at hdel
  cases hg : dictGet st.document_metadata document_id with
  | none => rw [hg] at hdel; simp at hdel
  | some dmx =>
      rw [hg] at hdel
      have h2 := Except.ok.inj hdel
      have hst2 : st2 = save_store w { st with
          vector_store := match st.vector_store with
            | none => none
            | some ds => some (ds.filter fun d => decide (d.metadata.document_id ≠ some document_id)),
          document_metadata := dictErase st.document_metadata document_id } :=
        (congrArg Prod.fst h2).symm
      constructor
      · intro query k score_threshold p hp
        have hvs : st2.vector_store = match st.vector_store with
            | none => none
            | some ds => some (ds.filter fun d =>
                decide (d.metadata.document_id ≠ some document_id)) := by
          rw [hst2, save_store_vector_store]
        cases hv : st.vector_store with
        | none =>
            rw [hv] at hvs
            simp only at hvs
            simp [similarity_search, hvs] at hp
        | some ds =>
            rw [hv] at hvs
            simp only at hvs
            simp only [similarity_search, hvs] at hp
            rcases List.mem_map.mp (List.mem_of_mem_filter hp) with ⟨q, hq, hpq⟩
            have hq1 : q.1 ∈ ds.filter fun d => decide (d.metadata.document_id ≠ some document_id) :=
              hnn _ query k q hq
            have hpred := (List.mem_filter.mp hq1).2
            have hne : q.1.metadata.document_id ≠ some document_id := of_decide_eq_true hpred
            have hp1 : p.1 = q.1 := by rw [← hpq]
            rw [hp1]
            exact hne
      · unfold get_document
        rw [hst2, save_store_document_metadata]
        exact dictGet_dictErase_self _ _

/-- C7 witness: after deleting "d" from the two-document store, the
record for "d" is gone. -/
theorem c7_witness : get_document stABdel "d" = none :=
  (c7_delete_then_search wOk stAB stABdel "d" rfl nnAll
    (by
      intro ds query k p hp
      simp only [nnAll] at hp
      rcases List.mem_map.mp hp with ⟨d, hd, hpd⟩
      rw [← hpd]
      exact hd)).2

theorem foldl_max_init_le : ∀ (l : List ℚ) (init : ℚ), init ≤ l.foldl max init
  | [], _ => le_refl _
  | b :: t, init => le_trans (le_max_left init b) (foldl_max_init_le t (max init b))

theorem foldl_max_le_of_mem : ∀ (l : List ℚ) (init a : ℚ), a ∈ l → a ≤ l.foldl max init
  | [], _, _, h => absurd h (List.not_mem_nil _)
  | b :: t, init, a, h => by
      rcases List.mem_cons.mp h with rfl | ht
      · exact le_trans (le_max_right init a) (foldl_max_init_le t (max init a))
      · exact foldl_max_le_of_mem t (max init b) a ht

theorem foldl_max_mem_or : ∀ (l : List ℚ) (init : ℚ),
    l.foldl max init = init ∨ l.foldl max init ∈ l
  | [], _ => Or.inl rfl
  | b :: t, init => by
      rcases foldl_max_mem_or t (max init b) with h | h
      · rw [List.foldl_cons, h]
        rcases max_choice init b with h2 | h2
        · exact Or.inl h2
        · exact Or.inr (by rw [h2]; exact List.mem_cons_self b t)
      · exact Or.inr (List.mem_cons_of_mem b h)

/-- C4 (amended): `retrieve` returns the empty
`RetrievalResult` when the underlying search has no hits; otherwise it
returns `has_relevant_content = true`, the hit chunk texts in search
order joined by the separator, one `SourceReference` per hit in the
same order whose `content_preview` is `truncate_text(text, 150)` (the
whole text when at most 150 characters, else the first 147 characters
followed by "..."), and `top_score` the maximum similarity among hits. -/
theorem c4_retrieve (nn : NNOracle) (st : StoreState) (query : String)
    (k : Option Nat) (score_threshold : Option ℚ) :
    (retrieveResults nn st query k score_threshold = [] →
      retrieve nn st query k score_threshold =
        { context := "", sources := [], has_relevant_content := false, top_score := 0 })
    ∧ (retrieveResults nn st query k score_threshold ≠ [] →
        (retrieve nn st query k score_threshold).has_relevant_content = true
        ∧ (retrieve nn st query k score_threshold).context
            = String.intercalate "\n\n---\n\n"
              ((retrieveResults nn st query k score_threshold).map fun p => p.1.page_content)
        ∧ (retrieve nn st query k score_threshold).sources
            = (retrieveResults nn st query k score_threshold).map (fun p =>
                { document := p.1.metadata.filename.getD "Unknown",
                  chunk_id := p.1.metadata.chunk_id.getD "unknown",
                  content_preview := truncate_text p.1.page_content 150 "..." })
        ∧ ((∀ p ∈ retrieveResults nn st query k score_threshold, 0 ≤ p.2) →
            (retrieve nn st query k score_threshold).top_score
              ∈ (retrieveResults nn st query k score_threshold).map (fun p => p.2)
            ∧ ∀ p ∈ retrieveResults nn st query k score_threshold,
                p.2 ≤ (retrieve nn st query k score_threshold).top_score)) := by
  constructor
  · intro he
    simp only [retrieve, he, if_pos]
  · intro hne
    have hr : retrieve nn st query k score_threshold =
        { context := String.intercalate "\n\n---\n\n"
            ((retrieveResults nn st query k score_threshold).map fun p => p.1.page_content),
          sources := (retrieveResults nn st query k score_threshold).map (fun p =>
            { document := p.1.metadata.filename.getD "Unknown",
              chunk_id := p.1.metadata.chunk_id.getD "unknown",
              content_preview := truncate_text p.1.page_content 150 "..." }),
          has_relevant_content := true,
          top_score := (retrieveResults nn st query k score_threshold).foldl
            (fun acc p => max acc p.2) 0 } := by
      simp only [retrieve, hne, if_neg, if_false]
    refine ⟨by rw [hr], by rw [hr], by rw [hr], ?_⟩
    intro hnneg
    rw [hr]
    simp only
    have hfold : (retrieveResults nn st query k score_threshold).foldl
        (fun acc p => max acc p.2) 0
        = ((retrieveResults nn st query k score_threshold).map (fun p => p.2)).foldl max 0 := by
      rw [List.foldl_map]
    rw [hfold]
    constructor
    · rcases foldl_max_mem_or
        ((retrieveResults nn st query k score_threshold).map (fun p => p.2)) 0 with h | h
      · rcases List.exists_mem_of_ne_nil _ hne with ⟨p0, hp0⟩
        have hm0 : p0.2 ∈ (retrieveResults nn st query k score_threshold).map (fun p => p.2) :=
          List.mem_map_of_mem _ hp0
        have hle := foldl_max_le_of_mem _ 0 p0.2 hm0
        rw [h] at hle ⊢
        have h0 : (0 : ℚ) ≤ p0.2 := hnneg p0 hp0
        rw [← le_antisymm hle h0]
        exact hm0
      · exact h
    · intro p hp
      exact foldl_max_le_of_mem _ 0 p.2 (List.mem_map_of_mem _ hp)

theorem retrieveResults_stLong :
    retrieveResults nnAll stLong "q" none none = [(docLong, 1)] := by
  unfold retrieveResults similarity_search
  simp only [stLong, nnAll, pyOrNat, pyOrRat, get_settings, List.map_cons, List.map_nil]
  norm_num

theorem longText_length : longText.length = 151 := rfl

set_option maxRecDepth 100000 in
/-- C4 counterexample: on a 151-character chunk the built
`content_preview` is the first 147 characters followed by "...", which
differs from the first 150 characters claimed. -/
theorem c4_counterexample :
    (retrieve nnAll stLong "q" none none).sources
      = [⟨"f", "c0", String.mk (List.replicate 147 'a') ++ "..."⟩]
    ∧ String.mk (List.replicate 147 'a') ++ "..." ≠ longText.take 150 := by
  constructor
  · simp only [retrieve, retrieveResults_stLong]
    rw [if_neg (by simp)]
    simp only [List.map_cons, List.map_nil]
    have hpre : truncate_text docLong.page_content 150 "..."
        = String.mk (List.replicate 147 'a') ++ "..." := by
      unfold truncate_text
      rw [if_neg (by rw [show docLong.page_content = longText from rfl, longText_length]; omega)]
      decide
    rw [hpre]
    simp [docLong, mA]
  · decide

/-- C4 witness: a store with one above-threshold hit produces a
relevant result. -/
theorem c4_witness : (retrieve nnAll stLong "q" none none).has_relevant_content = true :=
  ((c4_retrieve nnAll stLong "q" none none).2
    (by rw [retrieveResults_stLong]; simp)).1

theorem add_documentsRun_eq (w : World) (st : StoreState) (texts : List String)
    (metadatas : List ChunkMeta) (dm : DocumentMetadata) :
    add_documentsRun w st texts metadatas dm = save_store w { st with
      vector_store := match st.vector_store with
        | none => some (mkDocuments texts metadatas)
        | some ds => some (ds ++ mkDocuments texts metadatas),
      document_metadata := dictSet st.document_metadata dm.document_id dm } := rfl

theorem delete_documentRun_notfound (w : World) (st : StoreState) (document_id : String)
    (h : dictGet st.document_metadata document_id = none) :
    delete_documentRun w st document_id = st := by
  unfold delete_documentRun delete_document
  rw [h]

theorem delete_documentRun_found (w : World) (st : StoreState) (document_id : String)
    (dmx : DocumentMetadata) (h : dictGet st.document_metadata document_id = some dmx) :
    delete_documentRun w st document_id = save_store w { st with
      vector_store := match st.vector_store with
        | none => none
        | some ds => some (ds.filter fun d => decide (d.metadata.document_id ≠ some document_id)),
      document_metadata := dictErase st.document_metadata document_id } := by
  unfold delete_documentRun delete_document
  rw [h]

theorem countChunks_congr (st1 st2 : StoreState) (document_id : String)
    (h : st1.vector_store = st2.vector_store) :
    countChunks st1 document_id = countChunks st2 document_id := by
  unfold countChunks
  rw [h]

theorem mem_mkDocuments : ∀ (texts : List String) (metadatas : List ChunkMeta) (d : Document),
    d ∈ mkDocuments texts metadatas → d.metadata ∈ metadatas
  | [], _, _, h => by simp [mkDocuments] at h
  | _ :: _, [], _, h => by simp [mkDocuments] at h
  | t :: ts, m :: ms, d, h => by
      simp only [mkDocuments, List.zipWith_cons_cons] at h
      rcases List.mem_cons.mp h with rfl | ht
      · exact List.mem_cons_self _ _
      · exact List.mem_cons_of_mem _ (mem_mkDocuments ts ms d ht)

theorem length_mkDocuments (texts : List String) (metadatas : List ChunkMeta)
    (h : texts.length = metadatas.length) :
    (mkDocuments texts metadatas).length = texts.length := by
  unfold mkDocuments
  rw [List.length_zipWith, h, Nat.min_self]

theorem filter_mkDocuments_self (texts : List String) (metadatas : List ChunkMeta)
    (document_id : String)
    (hmeta : ∀ m ∈ metadatas, m.document_id = some document_id) :
    (mkDocuments texts metadatas).filter
      (fun d => decide (d.metadata.document_id = some document_id))
      = mkDocuments texts metadatas := by
  rw [List.filter_eq_self]
  intro d hd
  exact decide_eq_true (hmeta d.metadata (mem_mkDocuments texts metadatas d hd))

theorem filter_mkDocuments_other (texts : List String) (metadatas : List ChunkMeta)
    (document_id other_id : String)
    (hmeta : ∀ m ∈ metadatas, m.document_id = some document_id)
    (hne : document_id ≠ other_id) :
    (mkDocuments texts metadatas).filter
      (fun d => decide (d.metadata.document_id = some other_id)) = [] := by
  rw [List.filter_eq_nil_iff]
  intro d hd
  simp only [decide_eq_true_eq]
  rw [hmeta d.metadata (mem_mkDocuments texts metadatas d hd)]
  intro hcon
  exact hne (Option.some.inj hcon)

/-- C3 (amended): the chunk-count invariant holds in every state
reachable when each insert uses a fresh document id (no record and no
stored chunk under that id) and well-formed arguments (texts and
metadatas of equal length, every chunk tagged with the record's id,
`chunk_count` equal to the number of chunks); re-inserting an existing
id breaks it because the old chunks are not removed while the record is
overwritten. -/
theorem c3_chunk_count_invariant : ∀ (st : StoreState), GoodReach st →
    ∀ (document_id : String) (rec : DocumentMetadata),
      dictGet st.document_metadata document_id = some rec →
      rec.chunk_count = countChunks st document_id := by
  intro st hreach
  induction hreach with
  | init =>
      intro id rec h
      simp [newStore, dictGet] at h
  | insert w s texts metadatas dm hg hlen hcnt hmeta hfresh hzero ih =>
      intro id rec h
      rw [add_documentsRun_eq] at h ⊢
      rw [save_store_document_metadata] at h
      rw [countChunks_congr _ _ _ (save_store_vector_store w _)]
      simp only at h
      by_cases hid : dm.document_id = id
      · subst hid
        rw [dictGet_dictSet_self] at h
        have hrec : rec = dm := (Option.some.inj h).symm
        subst hrec
        unfold countChunks
        cases hv : s.vector_store with
        | none =>
            simp only
            rw [filter_mkDocuments_self texts metadatas rec.document_id hmeta]
            rw [length_mkDocuments texts metadatas hlen, hcnt]
        | some ds =>
            simp only
            rw [List.filter_append]
            rw [filter_mkDocuments_self texts metadatas rec.document_id hmeta]
            have hz : (ds.filter fun d =>
                decide (d.metadata.document_id = some rec.document_id)).length = 0 := by
              have := hzero
              unfold countChunks at this
              rw [hv] at this
              exact this
            rw [List.length_append, hz, length_mkDocuments texts metadatas hlen, hcnt]
            omega
      · rw [dictGet_dictSet_ne _ _ _ _ hid] at h
        rw [ih id rec h]
        unfold countChunks
        cases hv : s.vector_store with
        | none =>
            simp only
            rw [filter_mkDocuments_other texts metadatas dm.document_id id hmeta hid]
            rfl
        | some ds =>
            simp only
            rw [List.filter_append,
              filter_mkDocuments_other texts metadatas dm.document_id id hmeta hid]
            simp
  | del w s document_id hg ih =>
      intro id rec h
      cases hgd : dictGet s.document_metadata document_id with
      | none =>
          rw [delete_documentRun_notfound w s document_id hgd] at h ⊢
          exact ih id rec h
      | some dmx =>
          rw [delete_documentRun_found w s document_id dmx hgd] at h ⊢
          rw [save_store_document_metadata] at h
          simp only at h
          have hne : document_id ≠ id := by
            intro e
            subst e
            rw [dictGet_dictErase_self] at h
            exact Option.noConfusion h
          rw [dictGet_dictErase_ne _ _ _ hne] at h
          rw [ih id rec h]
          rw [countChunks_congr _ _ _ (save_store_vector_store w _)]
          unfold countChunks
          cases hv : s.vector_store with
          | none => simp
          | some ds =>
              simp only
              rw [List.filter_filter]
              refine congrArg List.length (List.filter_congr ?_).symm
              intro d hd
              by_cases hdid : d.metadata.document_id = some id
              · have hndel : d.metadata.document_id ≠ some document_id := by
                  rw [hdid]
                  intro hcon
                  exact hne (Option.some.inj hcon).symm
                have hiddoc : ¬id = document_id := fun e => hne e.symm
                simp [hdid, hndel, hiddoc]
              · simp [hdid]
  | wipe s hg =>
      intro id rec h
      simp [clear, dictGet] at h

/-- C3 counterexample: inserting document "d" (1 chunk) twice leaves the
metadata record claiming 1 chunk while 2 chunks tagged "d" are stored —
re-insert under an existing id overwrites the record but does not remove
the old chunks, so the invariant fails on this reachable state. -/
theorem c3_counterexample :
    dictGet c3st2.document_metadata "d" = some dmA
    ∧ dmA.chunk_count ≠ countChunks c3st2 "d" := by
  exact ⟨rfl, by decide⟩

/-- C3 witness: a single well-formed fresh insert satisfies the
invariant. -/
theorem c3_witness : dmA.chunk_count = countChunks c3st1 "d" :=
  c3_chunk_count_invariant c3st1
    (GoodReach.insert wOk newStore ["x"] [mA] dmA GoodReach.init rfl rfl
      (by decide) rfl rfl)
    "d" dmA rfl
